import Mathlib

/-!
Shallow embedding of `src/utils/data_generator.h` (class `DataGenerator`),
a deterministic test-fixture generator/validator for pattern files.

A pattern file is modelled as a `List Nat` of byte values (< 256).  File
descriptors and I/O disappear: `createFile` returns the byte list written,
`validateFile` consumes the byte list read.  The configured block size
(`UtilsConfiguration::blockSize()`) is passed explicitly as `bufSize`.
Machine `uint64_t` arithmetic is `Nat` with explicit `% 2 ^ 64`.
-/

namespace DataGenerator

/-- The pattern seed constant `0x0807060504030201` from the source. -/
def seed : Nat := 0x0807060504030201

/-- Big-endian byte serialization of a 64-bit value (`htobe64` + raw store):
most significant byte first. -/
def beBytes64 (v : Nat) : List Nat :=
  [v / 2 ^ 56 % 256, v / 2 ^ 48 % 256, v / 2 ^ 40 % 256, v / 2 ^ 32 % 256,
   v / 2 ^ 24 % 256, v / 2 ^ 16 % 256, v / 2 ^ 8 % 256, v % 256]

/-- Big-endian decoding of a byte list (`be64toh` after a raw 8-byte read). -/
def beDecode64 (l : List Nat) : Nat :=
  l.foldl (fun acc b => acc * 256 + b) 0

/-- `DataGenerator::fillAlignedBufferWithProperData`: a buffer of `size` bytes
(`size` a multiple of 8) starting at file offset `offset` (a multiple of 8),
filled with consecutive big-endian blocks `(seed + offset + 8*i) mod 2^64`. -/
def fillAlignedBufferWithProperData (size offset : Nat) : List Nat :=
  (List.range (size / 8)).flatMap (fun i => beBytes64 ((seed + offset + 8 * i) % 2 ^ 64))

/-- `DataGenerator::fillBufferWithProperData`: the aligned case calls the
aligned fill directly; otherwise an aligned superset buffer of
`16 + (size / 8) * 8` bytes is filled at `alignedOffset = (offset / 8) * 8`
and the `size`-byte slice starting at `offset - alignedOffset` is copied out. -/
def fillBufferWithProperData (size offset : Nat) : List Nat :=
  if offset % 8 = 0 ∧ size % 8 = 0 then
    fillAlignedBufferWithProperData size offset
  else
    ((fillAlignedBufferWithProperData (16 + size / 8 * 8) (offset / 8 * 8)).drop
      (offset - offset / 8 * 8)).take size

/-- The write loop of `DataGenerator::fillFileWithProperData`: while bytes
remain, write `bytesToWrite = min size bufSize` pattern bytes at
`currentOffset`.  The `buffer.resize(bytesToWrite)` of the source is modelled
by threading `bytesToWrite` as the next iteration's buffer size.  Each
iteration with a positive buffer size strictly decreases `size`, so the loop
is phrased structurally with `fuel`, always called with `fuel = size`.  When
the configured block size is 0 the source loops forever writing nothing; that
case runs out of fuel and is excluded by `0 < bufSize` in every theorem
below. -/
def fillFileLoop : (fuel size currentOffset bufSize : Nat) → List Nat
  | 0, _, _, _ => []
  | fuel + 1, size, currentOffset, bufSize =>
    if size = 0 then []
    else
      fillBufferWithProperData (min size bufSize) currentOffset ++
        fillFileLoop fuel (size - min size bufSize) (currentOffset + min size bufSize)
          (min size bufSize)

/-- `DataGenerator::fillFileWithProperData`: write the 8-byte big-endian size
header, then stream the remaining `size - 8` pattern bytes starting at file
offset 8.  The source asserts `size >= 8`; theorems carry that hypothesis. -/
def fillFileWithProperData (size bufSize : Nat) : List Nat :=
  beBytes64 size ++ fillFileLoop (size - 8) (size - 8) 8 bufSize

/-- `DataGenerator::createFile`: the file is created/truncated, so its final
content is exactly what `fillFileWithProperData` writes. -/
def createFile (size bufSize : Nat) : List Nat :=
  fillFileWithProperData size bufSize

/-- `DataGenerator::overwriteFile`: the file is opened without truncation and
`fillFileWithProperData` writes over its first bytes, with the size taken from
the file's current length; bytes past what is written are untouched. -/
def overwriteFile (oldContent : List Nat) (bufSize : Nat) : List Nat :=
  fillFileWithProperData oldContent.length bufSize ++
    oldContent.drop (fillFileWithProperData oldContent.length bufSize).length

/-- Outcome of `DataGenerator::validateFile`, identifying each `throw` /
return path of the source.  `dataMismatch` carries the recorded size warning
(prepended `error` string), the first differing index within the current
chunk, and the expected/actual hex-dump slices (up to 32 bytes each).
`internalAbort` is the `utils_mabort` after an inconsistent `memcmp`.
`nonterminating` marks fuel exhaustion, reached only in the case where the
source loops forever (configured block size 0). -/
inductive ValidateResult where
  | ok
  | tooShort (actualSize : Nat)
  | sizeMismatch (expectedSize actualSize : Nat)
  | dataMismatch (sizeWarning : Option (Nat × Nat)) (offsetInChunk : Nat)
      (expectedDump actualDump : List Nat)
  | internalAbort
  | nonterminating
  deriving DecidableEq, Repr

/-- The byte scan `for (i = 0; i < bytesToRead; ++i) if (actual[i] != proper[i])`:
index of the first position where the two buffers differ. -/
def findFirstDiff : List Nat → List Nat → Option Nat
  | a :: as, b :: bs =>
      if a ≠ b then some 0 else (findFirstDiff as bs).map (· + 1)
  | _, _ => none

/-- The read-and-compare loop of `DataGenerator::validateFile`: read
`bytesToRead = min size bufSize` bytes at `currentOffset`, compare against the
expected pattern chunk (`memcmp`), on success continue, on failure report the
first differing byte with up to 32 bytes of expected/actual context.
`properBuffer.resize(bytesToRead)` is modelled by threading `bytesToRead` as
the next buffer size, and the loop is phrased structurally with `fuel`
(always called with `fuel = size`), as in `fillFileLoop`. -/
def validateLoop (content : List Nat) (sizeWarning : Option (Nat × Nat)) :
    (fuel size currentOffset bufSize : Nat) → ValidateResult
  | 0, size, _, _ =>
    if size = 0 then
      match sizeWarning with
      | none => .ok
      | some (e, a) => .sizeMismatch e a
    else .nonterminating
  | fuel + 1, size, currentOffset, bufSize =>
    if size = 0 then
      match sizeWarning with
      | none => .ok
      | some (e, a) => .sizeMismatch e a
    else
      if (content.drop currentOffset).take (min size bufSize) =
          fillBufferWithProperData (min size bufSize) currentOffset then
        validateLoop content sizeWarning fuel (size - min size bufSize)
          (currentOffset + min size bufSize) (min size bufSize)
      else
        match findFirstDiff ((content.drop currentOffset).take (min size bufSize))
            (fillBufferWithProperData (min size bufSize) currentOffset) with
        | some i =>
            .dataMismatch sizeWarning i
              (((fillBufferWithProperData (min size bufSize) currentOffset).drop i).take 32)
              ((((content.drop currentOffset).take (min size bufSize)).drop i).take 32)
        | none => .internalAbort

/-- `DataGenerator::validateFile`: if the file holds fewer than 8 bytes the
header read fails and a short-file error is thrown; otherwise the decoded
header is compared with the actual size (recording a warning on mismatch) and
the content loop checks the remaining `actualSize - 8` bytes from offset 8. -/
def validateFile (content : List Nat) (bufSize : Nat) : ValidateResult :=
  if content.length < 8 then .tooShort content.length
  else
    validateLoop content
      (if beDecode64 (content.take 8) = content.length then none
       else some (beDecode64 (content.take 8), content.length))
      (content.length - 8) (content.length - 8) 8 bufSize

/-- The byte at absolute file offset `p` of any pattern payload: byte
`p % 8` of the big-endian block generated for the block offset `(p / 8) * 8`. -/
def patternByte (p : Nat) : Nat :=
  (beBytes64 ((seed + p / 8 * 8) % 2 ^ 64)).getD (p % 8) 0

/-- Decidable check that all payload bytes (offsets 8 to length) of a file
match the pattern. -/
def payloadMatches (content : List Nat) : Bool :=
  (List.range (content.length - 8)).all
    (fun j => content.getD (8 + j) 0 == patternByte (8 + j))

/-! ### Basic facts about the byte-level encodings -/

theorem beBytes64_length (v : Nat) : (beBytes64 v).length = 8 := rfl

theorem beDecode64_beBytes64 (v : Nat) (h : v < 2 ^ 64) :
    beDecode64 (beBytes64 v) = v := by
  simp only [beBytes64, beDecode64, List.foldl]
  omega

/-- Unfolding `patternByte` at a block-aligned offset `o` plus an in-block
index `k`. -/
theorem patternByte_block (o k : Nat) (ho : o % 8 = 0) (hk : k < 8) :
    patternByte (o + k) = (beBytes64 ((seed + o) % 2 ^ 64)).getD k 0 := by
  have h1 : (o + k) / 8 * 8 = o := by omega
  have h2 : (o + k) % 8 = k := by omega
  rw [patternByte, h1, h2]

/-- One full 8-byte block, byte by byte: the pattern bytes at offsets
`o, o+1, ..., o+7` (for `o` a multiple of 8) are exactly the big-endian
serialization of `(seed + o) mod 2^64`. -/
theorem block_bytes (o : Nat) (ho : o % 8 = 0) :
    (List.range 8).map (fun k => patternByte (o + k)) =
      beBytes64 ((seed + o) % 2 ^ 64) := by
  have h : List.range 8 = [0, 1, 2, 3, 4, 5, 6, 7] := rfl
  rw [h]
  simp only [List.map_cons, List.map_nil]
  rw [patternByte_block o 0 ho (by omega), patternByte_block o 1 ho (by omega),
    patternByte_block o 2 ho (by omega), patternByte_block o 3 ho (by omega),
    patternByte_block o 4 ho (by omega), patternByte_block o 5 ho (by omega),
    patternByte_block o 6 ho (by omega), patternByte_block o 7 ho (by omega)]
  rfl

/-! ### `map`/`range` bookkeeping used to reason about buffer slices -/

theorem map_range_split (f : Nat → Nat) (a c : Nat) :
    (List.range (a + c)).map f =
      (List.range a).map f ++ (List.range c).map (fun j => f (a + j)) := by
  rw [List.range_add, List.map_append, List.map_map]
  rfl

theorem map_range_take (f : Nat → Nat) (n t : Nat) :
    ((List.range n).map f).take t = (List.range (min t n)).map f := by
  rw [← List.map_take, List.take_range]

theorem map_range_drop (f : Nat → Nat) (n d : Nat) (h : d ≤ n) :
    ((List.range n).map f).drop d =
      (List.range (n - d)).map (fun j => f (d + j)) := by
  conv_lhs => rw [show n = d + (n - d) by omega, map_range_split]
  rw [List.drop_left' (by simp)]

/-! ### The offset-to-bytes characterization of the fill functions -/

/-- The block-writing loop of `fillAlignedBufferWithProperData`, byte by
byte: `n` consecutive blocks starting at a block-aligned offset `o` are the
pattern bytes of offsets `o, o+1, ..., o+8n-1`. -/
theorem fillAligned_blocks (n o : Nat) (ho : o % 8 = 0) :
    (List.range n).flatMap (fun i => beBytes64 ((seed + o + 8 * i) % 2 ^ 64)) =
      (List.range (8 * n)).map (fun j => patternByte (o + j)) := by
  induction n with
  | zero => rfl
  | succ n ih =>
      rw [List.range_succ, List.flatMap_append, ih, List.flatMap_singleton,
        show 8 * (n + 1) = 8 * n + 8 by ring, map_range_split]
      congr 1
      have hshift : ∀ k : Nat, patternByte (o + (8 * n + k)) = patternByte (o + 8 * n + k) := by
        intro k; congr 1; omega
      calc beBytes64 ((seed + o + 8 * n) % 2 ^ 64)
          = beBytes64 ((seed + (o + 8 * n)) % 2 ^ 64) := by rw [Nat.add_assoc]
        _ = (List.range 8).map (fun k => patternByte (o + 8 * n + k)) :=
            (block_bytes (o + 8 * n) (by omega)).symm
        _ = (List.range 8).map (fun j => patternByte (o + (8 * n + j))) :=
            List.map_congr_left (fun a _ => (hshift a).symm)

theorem fillAligned_eq (s o : Nat) (ho : o % 8 = 0) :
    fillAlignedBufferWithProperData s o =
      (List.range (s / 8 * 8)).map (fun j => patternByte (o + j)) := by
  rw [fillAlignedBufferWithProperData, fillAligned_blocks _ _ ho, Nat.mul_comm]

/-- The central determinism fact: each byte produced by
`fillBufferWithProperData` is the pattern byte of its absolute file offset,
whichever of the aligned / unaligned paths computed it. -/
theorem fillBuffer_eq (s o : Nat) :
    fillBufferWithProperData s o =
      (List.range s).map (fun j => patternByte (o + j)) := by
  rw [fillBufferWithProperData]
  split
  · next h =>
      rw [fillAligned_eq s o h.1, show s / 8 * 8 = s by omega]
  · next h =>
      rw [fillAligned_eq _ _ (by omega),
        show (16 + s / 8 * 8) / 8 * 8 = 16 + s / 8 * 8 by omega,
        map_range_drop _ _ _ (by omega), map_range_take,
        show min s (16 + s / 8 * 8 - (o - o / 8 * 8)) = s by omega]
      exact List.map_congr_left (fun a _ => by congr 1; omega)

theorem fillBuffer_length (s o : Nat) :
    (fillBufferWithProperData s o).length = s := by
  rw [fillBuffer_eq]; simp

/-- The write loop of `fillFileWithProperData`, byte by byte: with a positive
buffer size and enough fuel it writes the pattern bytes of offsets
`off, ..., off + size - 1`, independently of the chunking. -/
theorem fillFileLoop_spec (fuel : Nat) : ∀ size off b : Nat, size ≤ fuel → 0 < b →
    fillFileLoop fuel size off b =
      (List.range size).map (fun j => patternByte (off + j)) := by
  induction fuel with
  | zero =>
      intro size off b hf _
      have h0 : size = 0 := by omega
      subst h0; rfl
  | succ fuel ih =>
      intro size off b hf hb
      rw [fillFileLoop]
      by_cases h0 : size = 0
      · subst h0; rfl
      · rw [if_neg h0, fillBuffer_eq,
          ih (size - min size b) (off + min size b) (min size b) (by omega) (by omega)]
        conv_rhs => rw [show size = min size b + (size - min size b) by omega]
        rw [map_range_split]
        congr 1
        exact List.map_congr_left (fun a _ => by congr 1; omega)

theorem fillFile_spec (size b : Nat) (hb : 0 < b) :
    fillFileWithProperData size b =
      beBytes64 size ++
        (List.range (size - 8)).map (fun j => patternByte (8 + j)) := by
  rw [fillFileWithProperData, fillFileLoop_spec _ _ _ _ le_rfl hb]

theorem fillFile_length (size b : Nat) (hb : 0 < b) (hs : 8 ≤ size) :
    (fillFileWithProperData size b).length = size := by
  rw [fillFile_spec size b hb]
  simp [beBytes64]
  omega

/-! ### Facts about the validation loop -/

theorem validateLoop_zero (content : List Nat) (w : Option (Nat × Nat))
    (size off b : Nat) :
    validateLoop content w 0 size off b =
      if size = 0 then
        (match w with | none => .ok | some (e, a) => .sizeMismatch e a)
      else .nonterminating := rfl

theorem validateLoop_succ (content : List Nat) (w : Option (Nat × Nat))
    (fuel size off b : Nat) :
    validateLoop content w (fuel + 1) size off b =
      if size = 0 then
        (match w with | none => .ok | some (e, a) => .sizeMismatch e a)
      else
        if (content.drop off).take (min size b) =
            fillBufferWithProperData (min size b) off then
          validateLoop content w fuel (size - min size b)
            (off + min size b) (min size b)
        else
          match findFirstDiff ((content.drop off).take (min size b))
              (fillBufferWithProperData (min size b) off) with
          | some i =>
              .dataMismatch w i
                (((fillBufferWithProperData (min size b) off).drop i).take 32)
                ((((content.drop off).take (min size b)).drop i).take 32)
          | none => .internalAbort := rfl

/-- Two distinct buffers of the same length always have a first differing
byte, so the byte scan that follows a failed `memcmp` always finds one. -/
theorem findFirstDiff_some (l1 : List Nat) : ∀ l2 : List Nat,
    l1.length = l2.length → l1 ≠ l2 → ∃ i, findFirstDiff l1 l2 = some i := by
  induction l1 with
  | nil =>
      intro l2 hlen hne
      cases l2 with
      | nil => exact absurd rfl hne
      | cons b bs => simp at hlen
  | cons a as ih =>
      intro l2 hlen hne
      cases l2 with
      | nil => simp at hlen
      | cons b bs =>
          by_cases hab : a = b
          · subst hab
            have htail : as ≠ bs := fun h => hne (by rw [h])
            obtain ⟨i, hi⟩ := ih bs (by simpa using hlen) htail
            refine ⟨i + 1, ?_⟩
            rw [findFirstDiff, if_neg (by simp), hi]
            rfl
          · exact ⟨0, by rw [findFirstDiff, if_pos hab]⟩

/-- If the bytes of `content` from `currentOffset` on are exactly the pattern
bytes of their offsets, the validation loop matches every chunk and ends with
`ok` (or the recorded size mismatch). -/
theorem validateLoop_ok (content : List Nat) (w : Option (Nat × Nat)) (fuel : Nat) :
    ∀ size off b : Nat, size ≤ fuel → 0 < b →
    content.drop off = (List.range size).map (fun j => patternByte (off + j)) →
    validateLoop content w fuel size off b =
      (match w with | none => .ok | some (e, a) => .sizeMismatch e a) := by
  induction fuel with
  | zero =>
      intro size off b hf _ _
      have h0 : size = 0 := by omega
      subst h0
      rw [validateLoop_zero, if_pos rfl]
  | succ fuel ih =>
      intro size off b hf hb hmatch
      rw [validateLoop_succ]
      by_cases h0 : size = 0
      · rw [if_pos h0]
      · rw [if_neg h0]
        have hchunk : (content.drop off).take (min size b) =
            fillBufferWithProperData (min size b) off := by
          rw [hmatch, map_range_take, fillBuffer_eq,
            show min (min size b) size = min size b by omega]
        rw [if_pos hchunk]
        refine ih (size - min size b) (off + min size b) (min size b)
          (by omega) (by omega) ?_
        have hdd : content.drop (off + min size b) =
            (content.drop off).drop (min size b) := by
          rw [List.drop_drop]
        rw [hdd, hmatch, map_range_drop _ _ _ (by omega)]
        exact List.map_congr_left (fun a _ => by congr 1; omega)

/-- If some byte of `content` in the window `[off, off + size)` differs from
the pattern (and the window is inside the file), the validation loop ends in
a data-mismatch error carrying the recorded size warning. -/
theorem validateLoop_mismatch (content : List Nat) (w : Option (Nat × Nat)) (fuel : Nat) :
    ∀ size off b : Nat, size ≤ fuel → 0 < b →
    (content.drop off).length = size →
    content.drop off ≠ (List.range size).map (fun j => patternByte (off + j)) →
    ∃ i ed ad, validateLoop content w fuel size off b = .dataMismatch w i ed ad := by
  induction fuel with
  | zero =>
      intro size off b hf _ hlen hne
      have h0 : size = 0 := by omega
      exact absurd (List.length_eq_zero.mp (by omega : (content.drop off).length = 0))
        (by simpa [h0] using hne)
  | succ fuel ih =>
      intro size off b hf hb hlen hne
      have h0 : size ≠ 0 := by
        intro h
        subst h
        exact hne (by simpa using List.length_eq_zero.mp hlen)
      rw [validateLoop_succ, if_neg h0]
      by_cases hchunk : (content.drop off).take (min size b) =
          fillBufferWithProperData (min size b) off
      · rw [if_pos hchunk]
        have hlen2 : content.length - off = size := by
          rw [List.length_drop] at hlen
          omega
        refine ih (size - min size b) (off + min size b) (min size b)
          (by omega) (by omega) ?_ ?_
        · rw [List.length_drop]
          omega
        · intro hd
          apply hne
          have hsplit := List.take_append_drop (min size b) (content.drop off)
          rw [← hsplit, hchunk, fillBuffer_eq]
          conv_rhs => rw [show size = min size b + (size - min size b) by omega]
          rw [map_range_split]
          congr 1
          rw [List.drop_drop, hd]
          exact List.map_congr_left (fun a _ => by congr 1; omega)
      · rw [if_neg hchunk]
        have hl1 : ((content.drop off).take (min size b)).length = min size b := by
          rw [List.length_take, hlen]
          omega
        obtain ⟨i, hi⟩ := findFirstDiff_some _ _
          (by rw [hl1, fillBuffer_length]) hchunk
        rw [hi]
        exact ⟨i, _, _, rfl⟩

/-- As long as the scanned window stays inside the file (which `validateFile`
guarantees), the loop never reaches the `utils_mabort` after a failed
`memcmp`: the byte scan always finds the differing byte first. -/
theorem validateLoop_ne_abort (content : List Nat) (w : Option (Nat × Nat)) (fuel : Nat) :
    ∀ size off b : Nat, off + size ≤ content.length →
    validateLoop content w fuel size off b ≠ .internalAbort := by
  induction fuel with
  | zero =>
      intro size off b hin
      rw [validateLoop_zero]
      by_cases h0 : size = 0
      · rw [if_pos h0]
        cases w with
        | none => simp
        | some e => cases e; simp
      · rw [if_neg h0]
        simp
  | succ fuel ih =>
      intro size off b hin
      rw [validateLoop_succ]
      by_cases h0 : size = 0
      · rw [if_pos h0]
        cases w with
        | none => simp
        | some e => cases e; simp
      · rw [if_neg h0]
        by_cases hchunk : (content.drop off).take (min size b) =
            fillBufferWithProperData (min size b) off
        · rw [if_pos hchunk]
          exact ih (size - min size b) (off + min size b) (min size b) (by omega)
        · rw [if_neg hchunk]
          have hl1 : ((content.drop off).take (min size b)).length = min size b := by
            rw [List.length_take, List.length_drop]
            omega
          obtain ⟨i, hi⟩ := findFirstDiff_some _ _
            (by rw [hl1, fillBuffer_length]) hchunk
          rw [hi]
          simp

/-! ### Bridging `payloadMatches` and the suffix-level pattern equation -/

theorem drop_getD (c : List Nat) (d x : Nat) :
    (c.drop d).getD x 0 = c.getD (d + x) 0 := by
  rw [List.getD_eq_getElem?_getD, List.getD_eq_getElem?_getD, List.getElem?_drop]

theorem payload_drop_of_matches (c : List Nat) (h8 : 8 ≤ c.length)
    (hm : payloadMatches c = true) :
    c.drop 8 = (List.range (c.length - 8)).map (fun j => patternByte (8 + j)) := by
  rw [payloadMatches, List.all_eq_true] at hm
  apply List.ext_getElem (by simp)
  intro n h1 h2
  have hn : n < c.length - 8 := by simpa using h2
  have hgd := hm n (List.mem_range.mpr hn)
  rw [beq_iff_eq] at hgd
  have hL : (c.drop 8)[n] = (c.drop 8).getD n 0 := by
    rw [List.getD_eq_getElem?_getD, List.getElem?_eq_getElem h1]
    rfl
  rw [hL, drop_getD, hgd]
  simp

theorem payload_drop_of_not_matches (c : List Nat)
    (hm : payloadMatches c = false) :
    c.drop 8 ≠ (List.range (c.length - 8)).map (fun j => patternByte (8 + j)) := by
  rw [payloadMatches, List.all_eq_false] at hm
  obtain ⟨x, hxmem, hx⟩ := hm
  have hxlt : x < c.length - 8 := List.mem_range.mp hxmem
  intro hEq
  apply hx
  have := congrArg (fun l => l.getD x 0) hEq
  simp only [drop_getD] at this
  rw [List.getD_eq_getElem?_getD (((List.range (c.length - 8)).map _)) x,
    List.getElem?_map, List.getElem?_range hxlt] at this
  simpa using this

/-! ### End-to-end behaviour of `validateFile` -/

theorem validateFile_of_ge8 (content : List Nat) (b : Nat)
    (h8 : 8 ≤ content.length) :
    validateFile content b =
      validateLoop content
        (if beDecode64 (content.take 8) = content.length then none
         else some (beDecode64 (content.take 8), content.length))
        (content.length - 8) (content.length - 8) 8 b := by
  rw [validateFile, if_neg (Nat.not_lt.mpr h8)]

/-! ### A few slice-level corollaries of the characterizations -/

theorem drop_append_eight (h t : List Nat) (hh : h.length = 8) (k : Nat) :
    (h ++ t).drop (8 + k) = t.drop k := by
  rw [← hh, List.drop_append]

/-- A run of `L ≤ 8` pattern bytes starting at a block-aligned offset is the
`L`-byte prefix of that block's big-endian serialization. -/
theorem map_range_pattern_take (o L : Nat) (ho : o % 8 = 0) (hL : L ≤ 8) :
    (List.range L).map (fun k => patternByte (o + k)) =
      (beBytes64 ((seed + o) % 2 ^ 64)).take L := by
  rw [← block_bytes o ho, map_range_take, show min L 8 = L by omega]

/-! ### Claim theorems -/

/-- C1: for every size ≥ 8 (representable in `uint64_t`) and every positive
configured block size, `createFile(path, size)` followed by
`validateFile(path)` on the resulting content raises no error: validation
succeeds silently. -/
theorem C1_create_then_validate_ok (size b : Nat)
    (hs : 8 ≤ size) (hs64 : size < 2 ^ 64) (hb : 0 < b) :
    validateFile (createFile size b) b = .ok := by
  have hspec : createFile size b =
      beBytes64 size ++ (List.range (size - 8)).map (fun j => patternByte (8 + j)) := by
    rw [createFile]
    exact fillFile_spec size b hb
  have hlen : (createFile size b).length = size := by
    rw [createFile]
    exact fillFile_length size b hb hs
  rw [validateFile_of_ge8 _ _ (by omega)]
  have hdec : beDecode64 ((createFile size b).take 8) = (createFile size b).length := by
    rw [hlen, hspec, List.take_left' (beBytes64_length size),
      beDecode64_beBytes64 size hs64]
  rw [if_pos hdec]
  refine validateLoop_ok _ _ _ _ _ _ le_rfl hb ?_
  rw [hlen, hspec, List.drop_left' (beBytes64_length size)]

theorem C1_witness : validateFile (createFile 24 16) 16 = .ok :=
  C1_create_then_validate_ok 24 16 (by decide) (by decide) (by decide)

/-- C6: every file smaller than 8 bytes makes `validateFile` fail with a
short-file error carrying the actual file size, without attempting the
size-mismatch comparison or the content check. -/
theorem C6_short_file (content : List Nat) (b : Nat) (h : content.length < 8) :
    validateFile content b = .tooShort content.length := by
  rw [validateFile, if_pos h]

theorem C6_witness : validateFile [1, 2, 3, 4] 64 = .tooShort 4 :=
  C6_short_file [1, 2, 3, 4] 64 (by decide)

/-- C7: on an existing file of size S ≥ 8, `overwriteFile` writes
byte-for-byte the content `createFile(path, S)` would write, and the file
length is unchanged. -/
theorem C7_overwrite_eq_create (old : List Nat) (b : Nat)
    (hs : 8 ≤ old.length) (hb : 0 < b) :
    overwriteFile old b = createFile old.length b ∧
      (overwriteFile old b).length = old.length := by
  have hl := fillFile_length old.length b hb hs
  have hov : overwriteFile old b = fillFileWithProperData old.length b := by
    rw [overwriteFile, hl, List.drop_length, List.append_nil]
  exact ⟨by rw [hov, createFile], by rw [hov, hl]⟩

theorem C7_witness :
    overwriteFile [9, 9, 9, 9, 9, 9, 9, 9, 9] 4 = createFile 9 4 ∧
      (overwriteFile [9, 9, 9, 9, 9, 9, 9, 9, 9] 4).length = 9 :=
  C7_overwrite_eq_create [9, 9, 9, 9, 9, 9, 9, 9, 9] 4 (by decide) (by decide)

/-- C9: in the unaligned path of `fillBufferWithProperData`, the aligned
superset buffer of length `16 + (size / 8) * 8` always contains the requested
slice: `offset % 8 + size` never exceeds its length, so copying `size` bytes
from index `offset - alignedOffset` stays in bounds (and the copied buffer
has exactly `size` bytes). -/
theorem C9_superset_covers_slice (offset size : Nat) :
    offset % 8 + size ≤
        (fillAlignedBufferWithProperData (16 + size / 8 * 8) (offset / 8 * 8)).length ∧
      (fillBufferWithProperData size offset).length = size := by
  constructor
  · rw [fillAligned_eq _ _ (by omega)]
    simp only [List.length_map, List.length_range]
    omega
  · exact fillBuffer_length size offset

/-- C10: the `utils_mabort` branch of `validateFile` is unreachable: whenever
the chunk comparison reports a difference, the byte scan finds a differing
index first, so `validateFile` never returns the internal-abort outcome. -/
theorem C10_abort_unreachable (content : List Nat) (b : Nat) :
    validateFile content b ≠ .internalAbort := by
  rw [validateFile]
  split
  · simp
  · next h => exact validateLoop_ne_abort content _ _ _ _ _ (by omega)

/-- C2: for every size ≥ 8 and positive block size, the created file starts
with the 8-byte big-endian encoding of `size`, every full payload block `i`
(at absolute offset `8 + 8*i`) is the big-endian encoding of
`(seed + 8 + 8*i) mod 2^64`, and in particular `createFile 24` produces
exactly the 24 bytes of the spec's example. -/
theorem C2_file_format (size b : Nat) (hs : 8 ≤ size) (hs64 : size < 2 ^ 64)
    (hb : 0 < b) :
    (createFile size b).take 8 = beBytes64 size ∧
      (∀ i, 8 + 8 * i + 8 ≤ size →
        ((createFile size b).drop (8 + 8 * i)).take 8 =
          beBytes64 ((seed + (8 + 8 * i)) % 2 ^ 64)) ∧
      createFile 24 b =
        [0x00, 0x00, 0x00, 0x00, 0x00, 0x00, 0x00, 0x18,
         0x08, 0x07, 0x06, 0x05, 0x04, 0x03, 0x02, 0x09,
         0x08, 0x07, 0x06, 0x05, 0x04, 0x03, 0x02, 0x11] := by
  refine ⟨?_, ?_, ?_⟩
  · rw [createFile, fillFile_spec size b hb]
    exact List.take_left' (beBytes64_length size)
  · intro i hi
    rw [createFile, fillFile_spec size b hb,
      drop_append_eight _ _ (beBytes64_length size) (8 * i),
      map_range_drop _ _ _ (by omega), map_range_take,
      show min 8 (size - 8 - 8 * i) = 8 by omega]
    calc (List.range 8).map (fun j => patternByte (8 + (8 * i + j)))
        = (List.range 8).map (fun k => patternByte (8 + 8 * i + k)) :=
          List.map_congr_left (fun a _ => by congr 1; omega)
      _ = beBytes64 ((seed + (8 + 8 * i)) % 2 ^ 64) := block_bytes _ (by omega)
  · rw [createFile, fillFile_spec 24 b hb]
    decide

theorem C2_witness :
    (createFile 24 16).take 8 = beBytes64 24 ∧
      ((createFile 24 16).drop 8).take 8 = beBytes64 ((seed + 8) % 2 ^ 64) := by
  obtain ⟨h1, h2, h3⟩ := C2_file_format 24 16 (by decide) (by decide) (by decide)
  refine ⟨h1, ?_⟩
  simpa using h2 0 (by decide)

/-- C4 as stated is false: at `size = 21` (not a multiple of 8) the last
payload block of the created file starts at offset `8 * (21 / 8) = 16` and is
5 bytes long, not `size - 8 = 13` bytes. -/
theorem C4_counterexample :
    ((createFile 21 64).drop (8 * (21 / 8))).length ≠ 21 - 8 ∧
      (createFile 21 64).length = 21 := by decide

/-- C4 (amended): for every size ≥ 8 that is not a multiple of 8, the created
file ends with a truncated last payload block of exactly `size % 8`
(equivalently `(size - 8) % 8`) bytes, equal to the leading bytes of the full
8-byte pattern block for that block's absolute offset `8 * (size / 8)`. -/
theorem C4_truncated_tail (size b : Nat) (hs : 8 ≤ size) (hmod : size % 8 ≠ 0)
    (hb : 0 < b) :
    (createFile size b).drop (8 * (size / 8)) =
        (beBytes64 ((seed + 8 * (size / 8)) % 2 ^ 64)).take (size % 8) ∧
      ((createFile size b).drop (8 * (size / 8))).length = size % 8 := by
  have hdrop : (createFile size b).drop (8 * (size / 8)) =
      (List.range (size % 8)).map (fun k => patternByte (8 * (size / 8) + k)) := by
    rw [createFile, fillFile_spec size b hb,
      show 8 * (size / 8) = 8 + (8 * (size / 8) - 8) by omega,
      drop_append_eight _ _ (beBytes64_length size) _,
      map_range_drop _ _ _ (by omega),
      show size - 8 - (8 * (size / 8) - 8) = size % 8 by omega]
    exact List.map_congr_left (fun a _ => by congr 1; omega)
  refine ⟨?_, ?_⟩
  · rw [hdrop]
    exact map_range_pattern_take _ _ (by omega) (by omega)
  · rw [hdrop]
    simp

theorem C4_witness :
    (createFile 21 64).drop 16 = (beBytes64 ((seed + 16) % 2 ^ 64)).take 5 ∧
      ((createFile 21 64).drop 16).length = 5 :=
  C4_truncated_tail 21 64 (by decide) (by decide) (by decide)

/-- C8: each byte produced by the offset-to-block function depends only on
its absolute file offset: two `fillBufferWithProperData` calls with any chunk
boundaries agree on every offset their ranges share, whichever of the
aligned/unaligned paths each one took. -/
theorem C8_offset_determinism (o1 s1 o2 s2 p : Nat)
    (h1 : o1 ≤ p) (h2 : p < o1 + s1) (h3 : o2 ≤ p) (h4 : p < o2 + s2) :
    (fillBufferWithProperData s1 o1).getD (p - o1) 0 =
      (fillBufferWithProperData s2 o2).getD (p - o2) 0 := by
  have key : ∀ s o : Nat, o ≤ p → p < o + s →
      (fillBufferWithProperData s o).getD (p - o) 0 = patternByte p := by
    intro s o ho hp
    rw [fillBuffer_eq, List.getD_eq_getElem?_getD, List.getElem?_map,
      List.getElem?_range (by omega : p - o < s)]
    show patternByte (o + (p - o)) = patternByte p
    congr 1
    omega
  rw [key s1 o1 h1 h2, key s2 o2 h3 h4]

theorem C8_witness :
    (fillBufferWithProperData 16 8).getD 4 0 =
      (fillBufferWithProperData 8 10).getD 2 0 :=
  C8_offset_determinism 8 16 10 8 12 (by decide) (by decide) (by decide) (by decide)

/-- C5: when the decoded header differs from the actual size, the content
check still runs over the available payload bytes; if they all match the
pattern the result is the size-mismatch error, and if they differ the
size-mismatch warning is carried inside the data-mismatch error, so both
problems surface in one pass. -/
theorem C5_size_mismatch_reporting (content : List Nat) (b : Nat) (hb : 0 < b)
    (hlen : 8 ≤ content.length)
    (hsz : beDecode64 (content.take 8) ≠ content.length) :
    (payloadMatches content = true →
        validateFile content b =
          .sizeMismatch (beDecode64 (content.take 8)) content.length) ∧
      (payloadMatches content = false →
        ∃ i ed ad, validateFile content b =
          .dataMismatch (some (beDecode64 (content.take 8), content.length)) i ed ad) := by
  rw [validateFile_of_ge8 content b hlen, if_neg hsz]
  constructor
  · intro hm
    exact validateLoop_ok content _ _ _ _ _ le_rfl hb
      (payload_drop_of_matches content hlen hm)
  · intro hm
    exact validateLoop_mismatch content _ _ _ _ _ le_rfl hb
      (by rw [List.length_drop]) (payload_drop_of_not_matches content hm)

theorem C5_witness :
    validateFile
        (beBytes64 100 ++ (List.range 42).map (fun j => patternByte (8 + j))) 64 =
      .sizeMismatch 100 50 ∧
      ∃ i ed ad,
        validateFile
            ((beBytes64 100 ++ (List.range 42).map (fun j => patternByte (8 + j))).set 20 0)
            64 =
          .dataMismatch (some (100, 50)) i ed ad := by
  constructor
  · exact (C5_size_mismatch_reporting _ 64 (by decide) (by decide) (by decide)).1
      (by decide)
  · exact (C5_size_mismatch_reporting _ 64 (by decide) (by decide) (by decide)).2
      (by decide)

/-- C3: flipping the byte at absolute file offset 13 (payload offset 5) of a
valid size-24 pattern file makes `validateFile` fail with a data-mismatch
error reporting offset 5 in the scanned payload chunk, with the expected and
actual bytes from that offset to the end of the chunk (11 bytes, under the
32-byte cap) as context, provided the configured block size covers the
16-byte payload in one chunk. -/
theorem C3_corruption_detected (b v : Nat) (hb : 16 ≤ b) (hv : v < 256)
    (hne : v ≠ patternByte 13) :
    validateFile ((createFile 24 b).set 13 v) b =
      .dataMismatch none 5 ((createFile 24 b).drop 13)
        (v :: (createFile 24 b).drop 14) := by
  have hb0 : 0 < b := by omega
  have hp13 : patternByte 13 = 3 := by decide
  have hne3 : v ≠ 3 := fun h => hne (by rw [h, hp13])
  have hC : createFile 24 b =
      [0, 0, 0, 0, 0, 0, 0, 24, 8, 7, 6, 5, 4, 3, 2, 9,
       8, 7, 6, 5, 4, 3, 2, 17] := by
    rw [createFile, fillFile_spec 24 b hb0]
    decide
  have hdec : beDecode64 (([0, 0, 0, 0, 0, 0, 0, 24, 8, 7, 6, 5, 4, 3, 2, 9,
      8, 7, 6, 5, 4, 3, 2, 17].set 13 v).take 8) =
      ([0, 0, 0, 0, 0, 0, 0, 24, 8, 7, 6, 5, 4, 3, 2, 9,
        8, 7, 6, 5, 4, 3, 2, 17].set 13 v).length := rfl
  rw [hC, validateFile_of_ge8 _ _ (by rw [List.length_set]; decide), if_pos hdec,
    show ([0, 0, 0, 0, 0, 0, 0, 24, 8, 7, 6, 5, 4, 3, 2, 9,
      8, 7, 6, 5, 4, 3, 2, 17].set 13 v).length - 8 = 16 from rfl,
    show (16 : Nat) = 15 + 1 from rfl, validateLoop_succ, if_neg (by omega),
    show min (15 + 1) b = 15 + 1 from by omega,
    show (([0, 0, 0, 0, 0, 0, 0, 24, 8, 7, 6, 5, 4, 3, 2, 9,
        8, 7, 6, 5, 4, 3, 2, 17].set 13 v).drop 8).take (15 + 1) =
      [8, 7, 6, 5, 4, v, 2, 9, 8, 7, 6, 5, 4, 3, 2, 17] from rfl,
    show fillBufferWithProperData (15 + 1) 8 =
      [8, 7, 6, 5, 4, 3, 2, 9, 8, 7, 6, 5, 4, 3, 2, 17] from by decide,
    if_neg (show ¬([8, 7, 6, 5, 4, v, 2, 9, 8, 7, 6, 5, 4, 3, 2, 17] =
      [8, 7, 6, 5, 4, 3, 2, 9, 8, 7, 6, 5, 4, 3, 2, 17]) from by simp [hne3]),
    show findFirstDiff [8, 7, 6, 5, 4, v, 2, 9, 8, 7, 6, 5, 4, 3, 2, 17]
        [8, 7, 6, 5, 4, 3, 2, 9, 8, 7, 6, 5, 4, 3, 2, 17] = some 5 from by
      simp [findFirstDiff, hne3]]
  rfl

theorem C3_witness :
    validateFile ((createFile 24 1024).set 13 0) 1024 =
      .dataMismatch none 5 ((createFile 24 1024).drop 13)
        (0 :: (createFile 24 1024).drop 14) :=
  C3_corruption_detected 1024 0 (by decide) (by decide) (by decide)

end DataGenerator
